import Mathlib

/-!
Verification of the change-proposal core of the `brain` knowledge-management
application.  The definitions below are a shallow embedding, translated from
the TypeScript source (`packages/web/src/components/layout/RightPane.tsx`,
the entity data-access module, and the app-layout new-document handler).
Document and change content is modelled as `List Char` (named `Str`), so that
every operation is executable and every concrete scenario can be settled by
evaluation.  JavaScript regular-expression behaviour (the frontmatter block
regex and the heading-scan regexes) is modelled operationally, including the
greedy/lazy backtracking order of the specific patterns used by the source.
-/

set_option autoImplicit false

namespace Brain

/-- Characters of a JavaScript string; the embedding works on explicit
character lists so all definitions compute. -/
abbrev Str := List Char

/-- JavaScript whitespace (`\s`) restricted to the ASCII range used by the
documents in question: space, tab, newline, carriage return, vertical tab,
form feed.  (Unicode space classes are not modelled.) -/
def isJsWs (c : Char) : Bool :=
  c = ' ' || c = '\t' || c = '\n' || c = '\r' || c = Char.ofNat 11 || c = Char.ofNat 12

/-- JavaScript `toLowerCase` on ASCII characters. -/
def lower (s : Str) : Str := s.map Char.toLower

/-- Boolean "starts with" test on character lists. -/
def startsWithB : Str → Str → Bool
  | _, [] => true
  | [], _ :: _ => false
  | c :: cs, p :: ps => c = p && startsWithB cs ps

/-- Boolean substring test (JavaScript `String.includes`). -/
def containsB : Str → Str → Bool
  | s, pat =>
    if startsWithB s pat then true
    else
      match s with
      | [] => false
      | _ :: cs => containsB cs pat

/-- First index at which `pat` occurs in `s` (JavaScript `indexOf`), `none`
when absent. -/
def indexOfSub : Str → Str → Option Nat
  | s, pat =>
    if startsWithB s pat then some 0
    else
      match s with
      | [] => none
      | _ :: cs => (indexOfSub cs pat).map (· + 1)

/-- Last index of character `c` in `s` (JavaScript `lastIndexOf`), `none`
when absent. -/
def lastIndexOfChar (s : Str) (c : Char) : Option Nat :=
  match s with
  | [] => none
  | a :: cs =>
    match lastIndexOfChar cs c with
    | some i => some (i + 1)
    | none => if a = c then some 0 else none

/-- Replace the first occurrence of `pat` by `rep` (JavaScript
`String.replace` with a string pattern); the string is unchanged when `pat`
is absent. -/
def replaceFirst : Str → Str → Str → Str
  | s, pat, rep =>
    if startsWithB s pat then rep ++ s.drop pat.length
    else
      match s with
      | [] => []
      | c :: cs => c :: replaceFirst cs pat rep

/-- JavaScript `String.trim`: strip whitespace from both ends. -/
def trim (s : Str) : Str :=
  ((s.dropWhile isJsWs).reverse.dropWhile isJsWs).reverse

/-- Length of the maximal whitespace run at the head of the string. -/
def wsRun : Str → Nat
  | [] => 0
  | c :: cs => if isJsWs c then wsRun cs + 1 else 0

/-! ## Content Locator

Operational model of the heading-scanning regexes in `RightPane.tsx`:
`/<h[1-6][^>]*>[^<]*<\/h[1-6]>/gi` (full heading match, both case
variants of `h`), the derived opening-tag pattern built from a heading
level, and `/<\/h[1-6]>/i`. -/

/-- The letter `h` of a heading tag, either case (the regexes carry the
`i` flag). -/
def isHChar (c : Char) : Bool := c = 'h' || c = 'H'

/-- A heading level digit, `1` through `6`. -/
def isHeadingDigit (c : Char) : Bool := '1' ≤ c && c ≤ '6'

/-- Attempt to match `<h[1-6][^>]*>[^<]*<\/h[1-6]>` at the head of the
string; on success return the matched characters and the remainder. -/
def matchHeadingAt : Str → Option (Str × Str)
  | '<' :: c1 :: c2 :: rest =>
    if isHChar c1 && isHeadingDigit c2 then
      match rest.dropWhile (fun c => c ≠ '>') with
      | '>' :: r2 =>
        match r2.dropWhile (fun c => c ≠ '<') with
        | '<' :: '/' :: c3 :: c4 :: '>' :: r4 =>
          if isHChar c3 && isHeadingDigit c4 then
            some ('<' :: c1 :: c2 ::
              (rest.takeWhile (fun c => c ≠ '>') ++ '>' ::
                (r2.takeWhile (fun c => c ≠ '<') ++
                  '<' :: '/' :: c3 :: c4 :: '>' :: [])), r4)
          else none
        | _ => none
      | _ => none
    else none
  | _ => none

/-- The scanning loop of the heading regex, written with explicit fuel so
that it is structurally recursive (every step consumes at least one
character, so `s.length + 1` units of fuel never run out; the fuel is a
termination device only). -/
def findHeadingSatGo (term : Str) (fuel : Nat) (s : Str) : Option (Nat × Str × Str) :=
  match fuel with
  | 0 => none
  | fuel' + 1 =>
    match matchHeadingAt s with
    | some (m, r) =>
      if containsB (lower m) term then some (0, m, r)
      else (findHeadingSatGo term fuel' r).map (fun p => (p.1 + m.length, p.2.1, p.2.2))
    | none =>
      match s with
      | [] => none
      | _ :: tl => (findHeadingSatGo term fuel' tl).map (fun p => (p.1 + 1, p.2.1, p.2.2))

/-- Scan for the first full heading match (non-overlapping, in document
order, as `RegExp.exec` with the `g` flag) whose lowercased matched text
contains `term`; return its index, the matched characters, and the
remainder after the match. -/
def findHeadingSat (term : Str) (s : Str) : Option (Nat × Str × Str) :=
  findHeadingSatGo term (s.length + 1) s

/-- Match `<h[1-X][^>]*>` (with `X` the level bound) at the head of the
string. -/
def matchOpenAt (lvl : Char) : Str → Bool
  | '<' :: c1 :: c2 :: rest =>
    isHChar c1 && ('1' ≤ c2 && c2 ≤ lvl) && rest.contains '>'
  | _ => false

/-- Index of the first opening heading tag whose level is at most `lvl`. -/
def findOpenLe (lvl : Char) : Str → Option Nat
  | [] => none
  | s@(_ :: tl) =>
    if matchOpenAt lvl s then some 0
    else (findOpenLe lvl tl).map (· + 1)

/-- `charAt(2)` of a heading match: the heading level digit. -/
def levelOf : Str → Char
  | _ :: _ :: c :: _ => c
  | _ => '0'

/-- The body of the `"after"` branch of `findInsertionPoint`: offset of the
next equal-or-shallower opening heading tag after the first heading whose
match contains `term`, or the document length; `none` when no heading
matches (the branch falls through). -/
def afterRule (content term : Str) : Option Nat :=
  (findHeadingSat term content).map (fun p =>
    match findOpenLe (levelOf p.2.1) (content.drop (p.1 + p.2.1.length)) with
    | some k => p.1 + p.2.1.length + k
    | none => content.length)

/-- The body of the `"before"` branch of `findInsertionPoint`: start of the
nearest tag-open preceding the first case-insensitive occurrence of `term`,
or that occurrence itself; `none` when `term` does not occur. -/
def beforeRule (content term : Str) : Option Nat :=
  match indexOfSub (lower content) term with
  | none => none
  | some idx =>
    match lastIndexOfChar (content.take idx) '<' with
    | some t => some t
    | none => some idx

/-- Match `<\/h[1-6]>` at the head of the string. -/
def matchCloseAt : Str → Bool
  | '<' :: '/' :: c1 :: c2 :: '>' :: _ => isHChar c1 && isHeadingDigit c2
  | _ => false

/-- Index of the first closing heading tag (`content.search(/<\/h[1-6]>/i)`). -/
def closeTagIdx : Str → Option Nat
  | [] => none
  | s@(_ :: tl) =>
    if matchCloseAt s then some 0
    else (closeTagIdx tl).map (· + 1)

/-- The `"beginning"/"start"` branch: offset just after the first closing
heading tag, or `0` when no heading exists. -/
def beginningRule (content : Str) : Nat :=
  match closeTagIdx content with
  | some i => i + 5
  | none => 0

/-- `findInsertionPoint` from `RightPane.tsx`: classify the target by
keyword cascade (`after`, `before`, `end`, `beginning`/`start`), falling
through to the document length. -/
def findInsertionPoint (content target : Str) : Nat :=
  let lowerTarget := lower target
  let r1 :=
    if containsB lowerTarget "after".data then
      afterRule content (trim (replaceFirst lowerTarget "after".data []))
    else none
  match r1 with
  | some n => n
  | none =>
    let r2 :=
      if containsB lowerTarget "before".data then
        beforeRule content (trim (replaceFirst lowerTarget "before".data []))
      else none
    match r2 with
    | some n => n
    | none =>
      if containsB lowerTarget "end".data then content.length
      else if containsB lowerTarget "beginning".data ||
          containsB lowerTarget "start".data then
        beginningRule content
      else content.length

/-- The cleaned search term of `findAndReplace`: strip the first occurrence
each of `"replace"`, `"delete"`, `"the"`, then trim. -/
def cleanedTerm (lowerTarget : Str) : Str :=
  trim (replaceFirst (replaceFirst (replaceFirst lowerTarget
    "replace".data [])
    "delete".data [])
    "the".data [])

/-- The heading-delimited section located by `findAndReplace`: start of the
first heading match containing `term`, and the offset of the next
equal-or-shallower opening heading tag (or document end). -/
def sectionSpan (content term : Str) : Option (Nat × Nat) :=
  (findHeadingSat term content).map (fun p =>
    match findOpenLe (levelOf p.2.1) (content.drop (p.1 + p.2.1.length)) with
    | some k => (p.1, p.1 + p.2.1.length + k)
    | none => (p.1, content.length))

/-- `findAndReplace` from `RightPane.tsx`: when the target mentions
`replace` or `delete`, replace the located section with `newContent`;
otherwise (or when no heading matches) append `newContent` after a
newline. -/
def findAndReplace (content target newContent : Str) : Str :=
  let lowerTarget := lower target
  if containsB lowerTarget "replace".data ||
      containsB lowerTarget "delete".data then
    match sectionSpan content (cleanedTerm lowerTarget) with
    | some se => content.take se.1 ++ newContent ++ content.drop se.2
    | none => content ++ '\n' :: newContent
  else content ++ '\n' :: newContent

/-! ## Frontmatter

Operational model of `parseFrontmatter` and `serializeDocumentContent`.
The source matches `/^---\s*\r?\n([\s\S]*?)\r?\n---\s*\r?\n?/`; the
definitions below reproduce that pattern's behaviour, including the greedy
backtracking of the opening `\s*` and the lazy capture group. -/

/-- Match `\r?\n` at the head of the string, returning the consumed
length (the greedy `\r?` takes a `\r` only when a `\n` follows it). -/
def matchNl : Str → Option Nat
  | [] => none
  | c :: rest =>
    if c = '\r' then
      match rest with
      | '\n' :: _ => some 2
      | _ => none
    else if c = '\n' then some 1
    else none

/-- Length of the terminator `\r?\n---` of the frontmatter regex when it
matches at the head of the string. -/
def termHereLen (s : Str) : Option Nat :=
  match matchNl s with
  | some nl => if startsWithB (s.drop nl) "---".data then some (nl + 3) else none
  | none => none

/-- First position (lazy, one character at a time) where the terminator
`\r?\n---` of the frontmatter regex matches; returns the group length so
far and the terminator's length (`\r?\n` plus the three dashes). -/
def findTerm : Str → Option (Nat × Nat)
  | [] => none
  | s@(_ :: rest) =>
    match termHereLen s with
    | some L => some (0, L)
    | none => (findTerm rest).map (fun p => (p.1 + 1, p.2))

/-- Try the opening `\s*\r?\n` with `\s*` of length exactly `k`: succeeds
when `\r?\n` matches there and a terminator exists later (otherwise the
whole regex backtracks).  Returns the offset where the capture group
starts. -/
def openCandAt (rest0 : Str) (k : Nat) : Option Nat :=
  match matchNl (rest0.drop k) with
  | some nl => if (findTerm (rest0.drop (k + nl))).isSome then some (k + nl) else none
  | none => none

/-- Greedy backtracking over the opening `\s*`: try `k` whitespace
characters, largest first. -/
def openCandGo (rest0 : Str) : Nat → Option Nat
  | 0 => openCandAt rest0 0
  | k + 1 =>
    match openCandAt rest0 (k + 1) with
    | some p => some p
    | none => openCandGo rest0 k

/-- Offset (after the leading `---`) where the frontmatter capture group
starts, or `none` when the regex does not match. -/
def openCand (rest0 : Str) : Option Nat :=
  openCandGo rest0 (wsRun rest0)

/-- Split on `/\r?\n/` (JavaScript `String.split` with that regex). -/
def splitLines : Str → List Str
  | [] => [[]]
  | '\r' :: '\n' :: rest => [] :: splitLines rest
  | '\n' :: rest => [] :: splitLines rest
  | c :: rest =>
    match splitLines rest with
    | l :: ls => (c :: l) :: ls
    | [] => [c :: []]

/-- Insert or overwrite a key in the frontmatter mapping (JavaScript
object assignment: a later `key:` line overwrites an earlier one). -/
def upsert (m : List (Str × Str)) (k v : Str) : List (Str × Str) :=
  match m with
  | [] => [(k, v)]
  | (k', v') :: rest => if k' = k then (k, v) :: rest else (k', v') :: upsert rest k v

/-- Process one line of the raw frontmatter block: skip blank lines and
`#` comments, split at the first `:`, trim key and value, skip empty
keys. -/
def parseLine (fmAcc : List (Str × Str)) (line : Str) : List (Str × Str) :=
  let trimmed := trim line
  if trimmed.isEmpty || startsWithB trimmed "#".data then fmAcc
  else
    match indexOfSub trimmed ":".data with
    | none => fmAcc
    | some sep =>
      let key := trim (trimmed.take sep)
      let value := trim (trimmed.drop (sep + 1))
      if key.isEmpty then fmAcc else upsert fmAcc key value

/-- The `key → value` mapping parsed from the raw frontmatter text. -/
def parseMap (raw : Str) : List (Str × Str) :=
  (splitLines raw).foldl parseLine []

/-- Result of `parseFrontmatter`: body, parsed mapping, and the raw block
text (`none` when the content carries no frontmatter). -/
structure FrontmatterResult where
  body : Str
  frontmatter : List (Str × Str)
  frontmatterRaw : Option Str
deriving Repr, DecidableEq

/-- `parseFrontmatter` from `RightPane.tsx`: when the content starts with
`---` and the block regex matches, split off the raw frontmatter text and
the body (the regex consumes the closing `---` plus any following
whitespace run); otherwise the whole content is the body. -/
def parseFrontmatter (content : Str) : FrontmatterResult :=
  if startsWithB content "---".data then
    match openCand (content.drop 3) with
    | none => ⟨content, [], none⟩
    | some p =>
      match findTerm ((content.drop 3).drop p) with
      | none => ⟨content, [], none⟩
      | some jL =>
        ⟨((content.drop 3).drop (p + jL.1 + jL.2)).drop
            (wsRun ((content.drop 3).drop (p + jL.1 + jL.2))),
          parseMap (((content.drop 3).drop p).take jL.1),
          some (((content.drop 3).drop p).take jL.1)⟩
  else ⟨content, [], none⟩

/-- `serializeDocumentContent` from `RightPane.tsx`: re-wrap the raw
frontmatter verbatim, stripping exactly one leading newline from the body
if present. -/
def serializeDocumentContent (frontmatterRaw : Option Str) (body : Str) : Str :=
  match frontmatterRaw with
  | none => body
  | some raw =>
    '-' :: '-' :: '-' :: '\n' ::
      (raw ++ '\n' :: '-' :: '-' :: '-' :: '\n' ::
        (match body with
         | '\n' :: rest => rest
         | _ => body))

/-! ## Change model and Document Store

State and mutation operations of `useDocumentStore` (`RightPane.tsx`),
restricted to the mutation-relevant slice.  The JavaScript `documents`
object is an association list keyed by document id; `Date.now()` and the
random id fragment are modelled by a monotone `stamp` counter threaded
through the store (each creation or update consumes one stamp).
Persistence calls are fire-and-forget in the source (local state is set
synchronously before any await) and have no local effect, so they are not
modelled. -/

inductive ChangeStatus where
  | pending
  | applied
  | dismissed
deriving DecidableEq, Repr

/-- Whether a status is `pending` (the filter used by the bulk
operations). -/
def ChangeStatus.isPending : ChangeStatus → Bool
  | .pending => true
  | _ => false

structure PendingChange where
  id : String
  documentId : String
  operation : String
  target : Str
  content : Str
  description : String
  status : ChangeStatus
deriving DecidableEq, Repr

structure Document where
  id : String
  path : Str
  title : Str
  content : Str
  frontmatter : List (Str × Str)
  frontmatterRaw : Option Str
  updatedAt : Nat
deriving DecidableEq, Repr

structure DocStore where
  documents : List (String × Document)
  currentDocumentId : Option String
  lastCreatedDocumentId : Option String
  pendingChanges : List PendingChange
  stamp : Nat
deriving DecidableEq, Repr

/-- Look up a document by id (`state.documents[id]`). -/
def lookupDoc (ds : List (String × Document)) (k : String) : Option Document :=
  (ds.find? (fun p => p.1 == k)).map (·.2)

/-- `{...documents, [id]: doc}`: replace the entry in place when the key
exists, append otherwise. -/
def upsertDoc : List (String × Document) → String → Document → List (String × Document)
  | [], k, d => [(k, d)]
  | (k', d') :: rest, k, d =>
    if k' == k then (k, d) :: rest else (k', d') :: upsertDoc rest k d

/-- `delete rest[id]`: remove the entry with the given key, if present. -/
def eraseDoc : List (String × Document) → String → List (String × Document)
  | [], _ => []
  | (k', d') :: rest, k =>
    if k' == k then rest else (k', d') :: eraseDoc rest k

/-- A lowercase ASCII letter or digit (the `[a-z0-9]` class of the slug
regex, applied after `toLowerCase`). -/
def isAlnumLower (c : Char) : Bool :=
  ('a' ≤ c && c ≤ 'z') || ('0' ≤ c && c ≤ '9')

/-- `replace(/[^a-z0-9]+/g, "-")`: collapse each maximal run of
non-alphanumeric characters to a single hyphen.  The flag records whether
the scanner is inside such a run. -/
def slugCore (inRun : Bool) : Str → Str
  | [] => []
  | c :: rest =>
    if isAlnumLower c then c :: slugCore false rest
    else if inRun then slugCore true rest
    else '-' :: slugCore true rest

/-- `replace(/(^-|-$)/g, "")`: strip one leading and one trailing
hyphen. -/
def stripHyphens (s : Str) : Str :=
  let s1 := match s with
            | '-' :: rest => rest
            | _ => s
  match s1.reverse with
  | '-' :: rest => rest.reverse
  | _ => s1

/-- The slug derived from a document title in `createDocument`. -/
def slugify (title : Str) : Str :=
  stripHyphens (slugCore false (lower title))

/-- The generated document id (`doc-${Date.now()}-${random}` in the
source, driven here by the store's stamp counter). -/
def docIdOf (n : Nat) : String :=
  "doc-" ++ toString n

/-- `createDocument` from the document store: derive the path from the
slugified title, parse frontmatter out of the initial content, insert the
new document, and make it current. -/
def createDocument (title content : Str) (s : DocStore) : DocStore :=
  let id := docIdOf s.stamp
  let parsed := parseFrontmatter content
  let newDoc : Document :=
    ⟨id, "/docs/".data ++ slugify title ++ ".md".data, title,
      parsed.body, parsed.frontmatter, parsed.frontmatterRaw, s.stamp⟩
  { s with
    documents := upsertDoc s.documents id newDoc,
    currentDocumentId := some id,
    lastCreatedDocumentId := some id,
    stamp := s.stamp + 1 }

/-- `deleteDocument`: remove the entry (a missing id removes nothing) and
move `currentDocumentId` to the first remaining key when it pointed at the
removed document. -/
def deleteDocument (documentId : String) (s : DocStore) : DocStore :=
  let rest := eraseDoc s.documents documentId
  { s with
    documents := rest,
    currentDocumentId :=
      if s.currentDocumentId = some documentId then rest.head?.map (·.1)
      else s.currentDocumentId }

/-- `updateDocument`: re-parse frontmatter from the incoming content; a
frontmatter block is only replaced when the incoming content carries one
(`??` keeps an empty raw block, while the truthiness test
`hasNewFrontmatter && parsed.frontmatterRaw` rejects it for the parsed
mapping, faithfully to the source).  When the document id is absent the
source spreads `undefined`, producing a record whose untouched fields are
empty. -/
def updateDocument (documentId : String) (content : Str) (s : DocStore) : DocStore :=
  let existing := lookupDoc s.documents documentId
  let parsed := parseFrontmatter content
  let hasNew := parsed.frontmatterRaw.isSome
  let fmRaw :=
    match parsed.frontmatterRaw with
    | some r => some r
    | none =>
      match existing with
      | some d => d.frontmatterRaw
      | none => none
  let fm :=
    match parsed.frontmatterRaw with
    | some r =>
      if r.isEmpty then
        match existing with
        | some d => d.frontmatter
        | none => []
      else parsed.frontmatter
    | none =>
      match existing with
      | some d => d.frontmatter
      | none => []
  let body := if hasNew then parsed.body else content
  let updated : Document :=
    match existing with
    | some d => { d with content := body, frontmatter := fm,
                         frontmatterRaw := fmRaw, updatedAt := s.stamp }
    | none => ⟨"", [], [], body, fm, fmRaw, s.stamp⟩
  { s with
    documents := upsertDoc s.documents documentId updated,
    stamp := s.stamp + 1 }

/-- `applyChangeToContent`: dispatch one change against one content
string; the unknown-operation default appends the content after a
newline. -/
def applyChangeToContent (content : Str) (change : PendingChange) : Str :=
  if change.operation = "insert" then
    content.take (findInsertionPoint content change.target) ++
      '\n' :: (change.content ++ content.drop (findInsertionPoint content change.target))
  else if change.operation = "replace" then
    findAndReplace content change.target change.content
  else if change.operation = "delete" then
    findAndReplace content change.target []
  else content ++ '\n' :: change.content

/-- Set the status of the change with the given id (the store's
`pendingChanges.map` pattern). -/
def setStatus (cs : List PendingChange) (cid : String) (st : ChangeStatus) :
    List PendingChange :=
  cs.map (fun c => if c.id == cid then { c with status := st } else c)

/-- `applyChange`: no-op unless the change exists and is pending; `create`
operations and the `"new"` sentinel document id delegate to
`createDocument`; `delete` removes the target document; `insert`/`replace`
mutate the target's content when it still exists; in every case the change
is then marked applied. -/
def applyChange (changeId : String) (s : DocStore) : DocStore :=
  match s.pendingChanges.find? (fun c => c.id == changeId) with
  | none => s
  | some change =>
    if change.status ≠ ChangeStatus.pending then s
    else
      let s' :=
        if change.operation = "create" || change.documentId = "new" then
          createDocument change.target change.content s
        else if change.operation = "delete" then
          deleteDocument change.documentId s
        else
          match lookupDoc s.documents change.documentId with
          | some doc =>
            updateDocument change.documentId (applyChangeToContent doc.content change) s
          | none => s
      { s' with pendingChanges := setStatus s'.pendingChanges changeId ChangeStatus.applied }

/-- `dismissChange`: mark the change dismissed.  The source has no status
guard here. -/
def dismissChange (changeId : String) (s : DocStore) : DocStore :=
  { s with pendingChanges := setStatus s.pendingChanges changeId ChangeStatus.dismissed }

/-- `applyAllChanges`: snapshot the currently-pending changes and apply
them one by one, in queue order. -/
def applyAllChanges (s : DocStore) : DocStore :=
  ((s.pendingChanges.filter (fun c => c.status.isPending)).map (·.id)).foldl
    (fun st cid => applyChange cid st) s

/-- `dismissAllChanges`: mark every pending change dismissed. -/
def dismissAllChanges (s : DocStore) : DocStore :=
  { s with
    pendingChanges := s.pendingChanges.map (fun c =>
      if c.status.isPending then { c with status := ChangeStatus.dismissed } else c) }

/-! ## Manual new-document flow (`AppLayout`)

`handleNewDocument` disambiguates the title `"Untitled"` against existing
titles before calling `createDocument`. -/

/-- The candidate titles tried by `handleNewDocument`: `"Untitled"`, then
`"Untitled 2"`, `"Untitled 3"`, and so on. -/
def untitledAt : Nat → Str
  | 0 => "Untitled".data
  | Nat.succ n => "Untitled ".data ++ (toString (n + 2)).data

/-- Boolean membership test on the existing-titles set. -/
def memberB (titles : List Str) (t : Str) : Bool :=
  titles.any (fun x => x = t)

/-- The `while (existingTitles.has(title))` loop.  The fuel
`titles.length + 1` is enough: the candidates are pairwise distinct, so
among `titles.length + 1` of them at least one is unused, exactly as the
source's loop terminates. -/
def freshTitleGo (titles : List Str) : Nat → Nat → Str
  | 0, i => untitledAt i
  | fuel + 1, i =>
    if memberB titles (untitledAt i) then freshTitleGo titles fuel (i + 1)
    else untitledAt i

/-- The disambiguated title chosen by `handleNewDocument`. -/
def freshTitle (titles : List Str) : Str :=
  freshTitleGo titles (titles.length + 1) 0

/-- `handleNewDocument` from `AppLayout`: pick the first free
`"Untitled"`-style title and create a document with a heading body. -/
def handleNewDocument (s : DocStore) : DocStore :=
  createDocument (freshTitle (s.documents.map (fun p => p.2.title)))
    ("<h1>".data ++ freshTitle (s.documents.map (fun p => p.2.title)) ++ "</h1>\n<p></p>".data) s

/-! ## Entity store

`updateEntity` and `searchEntities` from the entity data-access module.
Property values are treated opaquely as strings.  `searchEntities` models
the SQL `SELECT * FROM entities WHERE name LIKE ? ORDER BY name LIMIT 20`
with the pattern `%query%`: an ASCII-case-insensitive substring filter
(SQLite `LIKE` default; wildcard metacharacters inside the query are not
modelled, the source does not escape them), a sort by name, and a
twenty-row cap. -/

structure Entity where
  id : String
  etype : String
  name : Str
  properties : List (Str × Str)
  created_at : Nat
  updated_at : Nat
deriving DecidableEq, Repr

structure EntityUpdate where
  name : Option Str
  properties : Option (List (Str × Str))
deriving DecidableEq, Repr

/-- `updateEntity` from the entity module: error when the id is missing;
otherwise `updates.name ?? entity.name` and
`updates.properties ?? entity.properties` are written back with a fresh
`updated_at`. -/
def updateEntity (es : List Entity) (id : String) (upd : EntityUpdate) (now : Nat) :
    Except String (List Entity) :=
  match es.find? (fun e => e.id == id) with
  | none => Except.error ("Entity not found: " ++ id)
  | some e =>
    Except.ok (es.map (fun x =>
      if x.id == id then
        { x with
          name := upd.name.getD e.name,
          properties := upd.properties.getD e.properties,
          updated_at := now }
      else x))

/-- Byte-order comparison on names (SQLite `ORDER BY` on text). -/
def strLe : Str → Str → Bool
  | [], _ => true
  | _ :: _, [] => false
  | a :: as, b :: bs => if a = b then strLe as bs else decide (a < b)

/-- Insertion into a name-sorted list. -/
def insertByName (e : Entity) : List Entity → List Entity
  | [] => [e]
  | x :: xs => if strLe e.name x.name then e :: x :: xs else x :: insertByName e xs

/-- `ORDER BY name` as an insertion sort. -/
def sortByName (es : List Entity) : List Entity :=
  es.foldr insertByName []

/-- `name LIKE %query%` (ASCII case-insensitive containment). -/
def likeMatch (name query : Str) : Bool :=
  containsB (lower name) (lower query)

/-- `searchEntities`: filter by name containment, order by name, and cap
at twenty rows (`LIMIT 20`). -/
def searchEntities (es : List Entity) (query : Str) : List Entity :=
  (sortByName (es.filter (fun e => likeMatch e.name query))).take 20

/-! ## Shared lemmas -/

/-- Finding by a key over a map that preserves the key commutes with the
map. -/
theorem find?_map_pres {α : Type} (p : α → Bool) (f : α → α) (l : List α)
    (hpf : ∀ a, p (f a) = p a) :
    (l.map f).find? p = (l.find? p).map f := by
  induction l with
  | nil => rfl
  | cons a t ih =>
    simp only [List.map_cons]
    cases hp : p a with
    | true =>
      rw [List.find?_cons_of_pos _ (by rw [hpf]; exact hp),
        List.find?_cons_of_pos _ hp]
      rfl
    | false =>
      rw [List.find?_cons_of_neg _ (by simp [hpf, hp]),
        List.find?_cons_of_neg _ (by simp [hp])]
      exact ih

/-- `setStatus` preserves ids, so finding the change afterwards returns
the updated record. -/
theorem find?_setStatus (cs : List PendingChange) (cid : String) (st : ChangeStatus) :
    (setStatus cs cid st).find? (fun c => c.id == cid) =
      ((cs.find? (fun c => c.id == cid)).map
        (fun c => if c.id == cid then { c with status := st } else c)) := by
  unfold setStatus
  exact find?_map_pres _ _ cs (fun a => by by_cases h : a.id = cid <;> simp [h])

/-- Setting the same status twice is the same as setting it once. -/
theorem setStatus_setStatus (cs : List PendingChange) (cid : String) (st : ChangeStatus) :
    setStatus (setStatus cs cid st) cid st = setStatus cs cid st := by
  unfold setStatus
  rw [List.map_map]
  apply List.map_congr_left
  intro a _
  by_cases h : a.id = cid <;> simp [h]

theorem pendingChanges_createDocument (t c : Str) (s : DocStore) :
    (createDocument t c s).pendingChanges = s.pendingChanges := rfl

theorem pendingChanges_deleteDocument (d : String) (s : DocStore) :
    (deleteDocument d s).pendingChanges = s.pendingChanges := rfl

theorem pendingChanges_updateDocument (d : String) (c : Str) (s : DocStore) :
    (updateDocument d c s).pendingChanges = s.pendingChanges := rfl

/-- The document mutation performed by a pending `applyChange` never
touches the pending queue; only the final status write does. -/
theorem pendingChanges_applyChange (cid : String) (s : DocStore) :
    (applyChange cid s).pendingChanges = s.pendingChanges ∨
      (applyChange cid s).pendingChanges =
        setStatus s.pendingChanges cid ChangeStatus.applied := by
  unfold applyChange
  cases hf : s.pendingChanges.find? (fun c => c.id == cid) with
  | none => exact Or.inl rfl
  | some ch =>
    dsimp only
    by_cases hst : ch.status = ChangeStatus.pending
    · rw [if_neg (by simp [hst])]
      right
      show setStatus (DocStore.pendingChanges _) cid ChangeStatus.applied = _
      congr 1
      split
      · rfl
      · split
        · rfl
        · split <;> rfl
    · rw [if_pos hst]
      exact Or.inl rfl

/-- Erasing an absent key is the identity. -/
theorem eraseDoc_of_none (ds : List (String × Document)) (k : String)
    (h : lookupDoc ds k = none) : eraseDoc ds k = ds := by
  induction ds with
  | nil => rfl
  | cons p rest ih =>
    unfold lookupDoc at h ih
    by_cases hk : p.1 = k
    · rw [List.find?_cons_of_pos _ (by simp [hk])] at h
      simp at h
    · rw [List.find?_cons_of_neg _ (by simp [hk])] at h
      unfold eraseDoc
      rw [if_neg (by simp [hk])]
      rw [ih h]

/-- Looking up the key just upserted yields the new document. -/
theorem lookupDoc_upsert_self (ds : List (String × Document)) (k : String) (d : Document) :
    lookupDoc (upsertDoc ds k d) k = some d := by
  induction ds with
  | nil => simp [upsertDoc, lookupDoc]
  | cons p rest ih =>
    unfold upsertDoc
    by_cases hk : p.1 = k
    · rw [if_pos (by simp [hk])]
      simp [lookupDoc]
    · rw [if_neg (by simp [hk])]
      unfold lookupDoc at ih ⊢
      rw [List.find?_cons_of_neg _ (by simp [hk])]
      exact ih

/-- Upserting one key leaves every other key's lookup unchanged. -/
theorem lookupDoc_upsert_other (ds : List (String × Document)) (k k' : String)
    (d : Document) (h : k' ≠ k) :
    lookupDoc (upsertDoc ds k d) k' = lookupDoc ds k' := by
  induction ds with
  | nil =>
    have hkk : (k == k') = false := by simp [beq_iff_eq]; exact Ne.symm h
    simp [upsertDoc, lookupDoc, List.find?, hkk]
  | cons p rest ih =>
    unfold upsertDoc
    by_cases hk : p.1 = k
    · rw [if_pos (by simp [hk])]
      unfold lookupDoc
      rw [List.find?_cons_of_neg _ (by simp [beq_iff_eq]; exact Ne.symm h),
        List.find?_cons_of_neg _ (by simp [beq_iff_eq, hk]; exact Ne.symm h)]
    · rw [if_neg (by simp [hk])]
      unfold lookupDoc at ih ⊢
      by_cases hp : p.1 = k'
      · rw [List.find?_cons_of_pos _ (by simp [hp]),
          List.find?_cons_of_pos _ (by simp [hp])]
      · rw [List.find?_cons_of_neg _ (by simp [hp]),
          List.find?_cons_of_neg _ (by simp [hp])]
        exact ih

/-- Content without a leading `---` parses to a bare body. -/
theorem parseFrontmatter_not_dashes {c : Str}
    (h : startsWithB c "---".data = false) :
    parseFrontmatter c = ⟨c, [], none⟩ := by
  unfold parseFrontmatter
  rw [h]
  rfl

/-- A successful heading match splits the string and is nonempty. -/
theorem matchHeadingAt_eq {s m r : Str} (h : matchHeadingAt s = some (m, r)) :
    s = m ++ r ∧ 0 < m.length := by
  unfold matchHeadingAt at h
  split at h
  · rename_i c1 c2 rest
    split at h
    · split at h
      · rename_i r2 hdrop
        split at h
        · rename_i c3 c4 r4 hdrop2
          split at h
          · simp only [Option.some.injEq, Prod.mk.injEq] at h
            obtain ⟨hm, hr⟩ := h
            subst hm hr
            refine ⟨?_, by simp⟩
            have h1 : rest.takeWhile (fun c => c ≠ '>') ++
                rest.dropWhile (fun c => c ≠ '>') = rest := by simp
            have h2 : r2.takeWhile (fun c => c ≠ '<') ++
                r2.dropWhile (fun c => c ≠ '<') = r2 := by simp
            rw [hdrop] at h1
            rw [hdrop2] at h2
            conv_lhs => rw [← h1, ← h2]
            simp
          · cases h
        · cases h
      · cases h
    · cases h
  · cases h

/-- A change id that is not in the queue makes `applyChange` a no-op. -/
theorem applyChange_not_found {cid : String} {s : DocStore}
    (hf : s.pendingChanges.find? (fun c => c.id == cid) = none) :
    applyChange cid s = s := by
  unfold applyChange
  rw [hf]

/-- A change that is no longer pending makes `applyChange` a no-op. -/
theorem applyChange_not_pending {cid : String} {s : DocStore} {ch : PendingChange}
    (hf : s.pendingChanges.find? (fun c => c.id == cid) = some ch)
    (hst : ch.status ≠ ChangeStatus.pending) :
    applyChange cid s = s := by
  unfold applyChange
  rw [hf]
  dsimp only
  rw [if_pos hst]

/-- Applying a found pending change rewrites the queue by marking exactly
that change applied. -/
theorem pendingChanges_applyChange_found {cid : String} {s : DocStore} {ch : PendingChange}
    (hf : s.pendingChanges.find? (fun c => c.id == cid) = some ch)
    (hst : ch.status = ChangeStatus.pending) :
    (applyChange cid s).pendingChanges =
      setStatus s.pendingChanges cid ChangeStatus.applied := by
  unfold applyChange
  rw [hf]
  dsimp only
  rw [if_neg (by simp [hst])]
  show setStatus (DocStore.pendingChanges _) cid ChangeStatus.applied = _
  congr 1
  split
  · rfl
  · split
    · rfl
    · split <;> rfl

/-- Finding a change after `applyChange` returns it with status applied
when it was pending before. -/
theorem find?_applyChange_found {cid : String} {s : DocStore} {ch : PendingChange}
    (hf : s.pendingChanges.find? (fun c => c.id == cid) = some ch)
    (hst : ch.status = ChangeStatus.pending) :
    (applyChange cid s).pendingChanges.find? (fun c => c.id == cid) =
      some { ch with status := ChangeStatus.applied } := by
  rw [pendingChanges_applyChange_found hf hst, find?_setStatus, hf]
  have hid : (ch.id == cid) = true := by
    have h2 := List.find?_some hf
    simpa using h2
  simp only [Option.map_some']
  rw [if_pos hid]

/-! ## Claim C1 -/

/-- C1 counterexample: on a store with one pending insert change,
apply-then-dismiss leaves the change dismissed while apply-once leaves it
applied — `dismissChange` has no status guard, so there is a transition
out of the terminal applied state and re-resolution is not a no-op on the
status. -/
theorem applyThenDismissOverwrites :
    ((dismissChange "a" (applyChange "a"
        ⟨[], none, none, [⟨"a", "d1", "insert", "at the end".data, "A".data, "",
          ChangeStatus.pending⟩], 0⟩)).pendingChanges.map PendingChange.status ≠
      (applyChange "a"
        ⟨[], none, none, [⟨"a", "d1", "insert", "at the end".data, "A".data, "",
          ChangeStatus.pending⟩], 0⟩).pendingChanges.map PendingChange.status) ∧
    (dismissChange "a" (applyChange "a"
        ⟨[], none, none, [⟨"a", "d1", "insert", "at the end".data, "A".data, "",
          ChangeStatus.pending⟩], 0⟩)).pendingChanges.map PendingChange.status =
      [ChangeStatus.dismissed] ∧
    (applyChange "a"
        ⟨[], none, none, [⟨"a", "d1", "insert", "at the end".data, "A".data, "",
          ChangeStatus.pending⟩], 0⟩).pendingChanges.map PendingChange.status =
      [ChangeStatus.applied] := by
  refine ⟨by decide, by decide, by decide⟩

/-- C1 (amended): `applyChange` acts only on pending changes, so
apply-then-apply and dismiss-then-apply are no-ops on the whole store, and
dismiss-then-dismiss is a no-op; dismissal never touches documents; but
`dismissChange` carries no status guard, so apply-then-dismiss overwrites
the applied status with dismissed (with document content unchanged by the
second resolution). -/
theorem changeResolutionSemantics (s : DocStore) (cid : String) :
    applyChange cid (applyChange cid s) = applyChange cid s ∧
    applyChange cid (dismissChange cid s) = dismissChange cid s ∧
    dismissChange cid (dismissChange cid s) = dismissChange cid s ∧
    (dismissChange cid s).documents = s.documents ∧
    (dismissChange cid (applyChange cid s)).documents = (applyChange cid s).documents ∧
    (∀ ch, s.pendingChanges.find? (fun c => c.id == cid) = some ch →
      (dismissChange cid (applyChange cid s)).pendingChanges.find?
          (fun c => c.id == cid) =
        some { ch with status := ChangeStatus.dismissed }) := by
  refine ⟨?_, ?_, ?_, rfl, rfl, ?_⟩
  · cases hf : s.pendingChanges.find? (fun c => c.id == cid) with
    | none => rw [applyChange_not_found hf, applyChange_not_found hf]
    | some ch =>
      by_cases hst : ch.status = ChangeStatus.pending
      · exact applyChange_not_pending (find?_applyChange_found hf hst) (by simp)
      · rw [applyChange_not_pending hf hst, applyChange_not_pending hf hst]
  · have hdis : (dismissChange cid s).pendingChanges.find? (fun c => c.id == cid) =
        (s.pendingChanges.find? (fun c => c.id == cid)).map
          (fun c => if c.id == cid then { c with status := ChangeStatus.dismissed } else c) :=
      find?_setStatus s.pendingChanges cid ChangeStatus.dismissed
    cases hf : s.pendingChanges.find? (fun c => c.id == cid) with
    | none =>
      rw [hf] at hdis
      simp only [Option.map_none'] at hdis
      exact applyChange_not_found hdis
    | some ch =>
      rw [hf] at hdis
      have hid : (ch.id == cid) = true := by simpa using List.find?_some hf
      rw [Option.map_some', if_pos hid] at hdis
      exact applyChange_not_pending hdis (by simp)
  · simp [dismissChange, setStatus_setStatus]
  · intro ch hf
    by_cases hst : ch.status = ChangeStatus.pending
    · have hid : ({ ch with status := ChangeStatus.applied }.id == cid) = true := by
        simpa using List.find?_some hf
      show (setStatus (applyChange cid s).pendingChanges cid
          ChangeStatus.dismissed).find? _ = _
      rw [find?_setStatus, find?_applyChange_found hf hst, Option.map_some', if_pos hid]
    · have hid : (ch.id == cid) = true := by simpa using List.find?_some hf
      rw [applyChange_not_pending hf hst]
      show (setStatus s.pendingChanges cid ChangeStatus.dismissed).find? _ = _
      rw [find?_setStatus, hf, Option.map_some', if_pos hid]

/-- C1 witness: the amended semantics at a concrete one-change store. -/
theorem changeResolutionSemantics_witness :
    (dismissChange "a" (applyChange "a"
        ⟨[], none, none, [⟨"a", "d1", "insert", "at the end".data, "A".data, "",
          ChangeStatus.pending⟩], 0⟩)).pendingChanges.find? (fun c => c.id == "a") =
      some ⟨"a", "d1", "insert", "at the end".data, "A".data, "",
        ChangeStatus.dismissed⟩ :=
  (changeResolutionSemantics
    ⟨[], none, none, [⟨"a", "d1", "insert", "at the end".data, "A".data, "",
      ChangeStatus.pending⟩], 0⟩ "a").2.2.2.2.2
    ⟨"a", "d1", "insert", "at the end".data, "A".data, "", ChangeStatus.pending⟩
    (by decide)

/-! ## Claim C5 -/

/-- C5 counterexample: updating entity `e1` (properties `a=1, b=2`) with
the partial property set `a=9` yields properties `a=9` only — the key `b`,
not named in the update, is dropped rather than left untouched, refuting
the shallow-merge reading. -/
theorem updateEntityDropsUnnamedKey :
    (updateEntity [⟨"e1", "person", "N".data,
        [("a".data, "1".data), ("b".data, "2".data)], 0, 0⟩]
      "e1" ⟨none, some [("a".data, "9".data)]⟩ 5).toOption =
      some [⟨"e1", "person", "N".data, [("a".data, "9".data)], 0, 5⟩] ∧
    (updateEntity [⟨"e1", "person", "N".data,
        [("a".data, "1".data), ("b".data, "2".data)], 0, 0⟩]
      "e1" ⟨none, some [("a".data, "9".data)]⟩ 5).toOption ≠
      some [⟨"e1", "person", "N".data,
        [("a".data, "9".data), ("b".data, "2".data)], 0, 5⟩] := by
  refine ⟨by rfl, by decide⟩

/-- C5 (amended): `updateEntity` signals an error on a missing id and
otherwise replaces the `name` when given and the `properties` mapping
wholesale when given (keys absent from the supplied mapping are dropped,
the whole existing mapping is kept when none is supplied), always bumping
`updated_at`. -/
theorem updateEntityReplacesWholesale (es : List Entity) (id : String)
    (upd : EntityUpdate) (now : Nat) :
    (∀ e, es.find? (fun x => x.id == id) = some e →
      updateEntity es id upd now = Except.ok (es.map (fun x =>
        if x.id == id then
          { x with
            name := upd.name.getD e.name,
            properties := upd.properties.getD e.properties,
            updated_at := now }
        else x)) ∧
      (es.map (fun x =>
        if x.id == id then
          { x with
            name := upd.name.getD e.name,
            properties := upd.properties.getD e.properties,
            updated_at := now }
        else x)).find? (fun x => x.id == id) =
        some { e with
          name := upd.name.getD e.name,
          properties := upd.properties.getD e.properties,
          updated_at := now }) ∧
    (es.find? (fun x => x.id == id) = none →
      updateEntity es id upd now = Except.error ("Entity not found: " ++ id)) := by
  constructor
  · intro e hf
    constructor
    · unfold updateEntity
      rw [hf]
    · have hid : (e.id == id) = true := by simpa using List.find?_some hf
      rw [find?_map_pres _ _ es
        (fun a => by by_cases h : a.id = id <;> simp [h]), hf, Option.map_some',
        if_pos hid]
  · intro hf
    unfold updateEntity
    rw [hf]

/-- C5 witness: the amended semantics at the concrete two-key entity. -/
theorem updateEntityReplacesWholesale_witness :
    updateEntity [⟨"e1", "person", "N".data,
        [("a".data, "1".data), ("b".data, "2".data)], 0, 0⟩]
      "e1" ⟨none, some [("a".data, "9".data)]⟩ 5 =
      Except.ok [⟨"e1", "person", "N".data, [("a".data, "9".data)], 0, 5⟩] :=
  ((updateEntityReplacesWholesale
      [⟨"e1", "person", "N".data, [("a".data, "1".data), ("b".data, "2".data)], 0, 0⟩]
      "e1" ⟨none, some [("a".data, "9".data)]⟩ 5).1
    ⟨"e1", "person", "N".data, [("a".data, "1".data), ("b".data, "2".data)], 0, 0⟩
    (by decide)).1

/-! ## Claim C10 -/

/-- C10: for every query string and entity table, `searchEntities` returns
at most twenty entities (the `LIMIT 20` cap), however many names contain
the query substring. -/
theorem searchEntitiesAtMostTwenty (es : List Entity) (query : Str) :
    (searchEntities es query).length ≤ 20 := by
  unfold searchEntities
  exact List.length_take_le 20 _

/-! ## Claim C7 -/

/-- C7: `applyChange` on a pending change whose target document id no
longer exists (and is not the `"new"` sentinel) leaves the documents map
untouched — a `delete` erases nothing, an `insert`/`replace` skips the
content mutation — and still marks the change applied. -/
theorem applyChangeMissingDocumentSafe (s : DocStore) (cid : String) (ch : PendingChange)
    (hf : s.pendingChanges.find? (fun c => c.id == cid) = some ch)
    (hp : ch.status = ChangeStatus.pending)
    (hm : lookupDoc s.documents ch.documentId = none)
    (hnew : ch.documentId ≠ "new")
    (hnc : ch.operation ≠ "create") :
    (applyChange cid s).documents = s.documents ∧
    (applyChange cid s).pendingChanges.find? (fun c => c.id == cid) =
      some { ch with status := ChangeStatus.applied } := by
  refine ⟨?_, find?_applyChange_found hf hp⟩
  unfold applyChange
  rw [hf]
  dsimp only
  rw [if_neg (by simp [hp]), if_neg (by simp [hnc, hnew])]
  by_cases hdel : ch.operation = "delete"
  · rw [if_pos hdel]
    show eraseDoc s.documents ch.documentId = s.documents
    exact eraseDoc_of_none _ _ hm
  · rw [if_neg hdel, hm]

/-- C7 witness: a delete change against a vanished document id on a
concrete store. -/
theorem applyChangeMissingDocumentSafe_witness :
    (applyChange "z"
        ⟨[("d1", ⟨"d1", "/docs/d.md".data, "D".data, "<p>x</p>".data, [], none, 0⟩)],
          some "d1", none,
          [⟨"z", "gone", "delete", "sec".data, [], "", ChangeStatus.pending⟩], 0⟩).documents =
      [("d1", ⟨"d1", "/docs/d.md".data, "D".data, "<p>x</p>".data, [], none, 0⟩)] ∧
    (applyChange "z"
        ⟨[("d1", ⟨"d1", "/docs/d.md".data, "D".data, "<p>x</p>".data, [], none, 0⟩)],
          some "d1", none,
          [⟨"z", "gone", "delete", "sec".data, [], "", ChangeStatus.pending⟩], 0⟩).pendingChanges.find?
        (fun c => c.id == "z") =
      some ⟨"z", "gone", "delete", "sec".data, [], "", ChangeStatus.applied⟩ :=
  applyChangeMissingDocumentSafe
    ⟨[("d1", ⟨"d1", "/docs/d.md".data, "D".data, "<p>x</p>".data, [], none, 0⟩)],
      some "d1", none,
      [⟨"z", "gone", "delete", "sec".data, [], "", ChangeStatus.pending⟩], 0⟩
    "z" ⟨"z", "gone", "delete", "sec".data, [], "", ChangeStatus.pending⟩
    (by decide) (by decide) (by decide) (by decide) (by decide)

/-! ## Claim C9 -/

/-- C9: a pending change carrying the sentinel `documentId = "new"` makes
`applyChange` create a document — titled `change.target`, at the slug
path, with body `change.content` when the content carries no frontmatter
block — regardless of the operation field, leaving every existing
document's lookup unchanged, and marks the change applied. -/
theorem applyChangeNewSentinelCreates (s : DocStore) (cid : String) (ch : PendingChange)
    (hf : s.pendingChanges.find? (fun c => c.id == cid) = some ch)
    (hp : ch.status = ChangeStatus.pending)
    (hnew : ch.documentId = "new") :
    lookupDoc (applyChange cid s).documents (docIdOf s.stamp) =
      some ⟨docIdOf s.stamp, "/docs/".data ++ slugify ch.target ++ ".md".data, ch.target,
        (parseFrontmatter ch.content).body, (parseFrontmatter ch.content).frontmatter,
        (parseFrontmatter ch.content).frontmatterRaw, s.stamp⟩ ∧
    (∀ k, k ≠ docIdOf s.stamp →
      lookupDoc (applyChange cid s).documents k = lookupDoc s.documents k) ∧
    (startsWithB ch.content "---".data = false →
      lookupDoc (applyChange cid s).documents (docIdOf s.stamp) =
        some ⟨docIdOf s.stamp, "/docs/".data ++ slugify ch.target ++ ".md".data, ch.target,
          ch.content, [], none, s.stamp⟩) ∧
    (applyChange cid s).pendingChanges.find? (fun c => c.id == cid) =
      some { ch with status := ChangeStatus.applied } := by
  have hdocs : (applyChange cid s).documents =
      upsertDoc s.documents (docIdOf s.stamp)
        ⟨docIdOf s.stamp, "/docs/".data ++ slugify ch.target ++ ".md".data, ch.target,
          (parseFrontmatter ch.content).body, (parseFrontmatter ch.content).frontmatter,
          (parseFrontmatter ch.content).frontmatterRaw, s.stamp⟩ := by
    unfold applyChange
    rw [hf]
    dsimp only
    rw [if_neg (by simp [hp]), if_pos (by simp [hnew])]
    rfl
  refine ⟨?_, ?_, ?_, find?_applyChange_found hf hp⟩
  · rw [hdocs]
    exact lookupDoc_upsert_self _ _ _
  · intro k hk
    rw [hdocs]
    exact lookupDoc_upsert_other _ _ _ _ hk
  · intro hnd
    rw [hdocs, parseFrontmatter_not_dashes hnd]
    exact lookupDoc_upsert_self _ _ _

/-- C9 witness: a delete-operation change with `documentId = "new"` on a
concrete store creates `doc-5` titled "My Doc" and leaves `d1` alone. -/
theorem applyChangeNewSentinelCreates_witness :
    lookupDoc (applyChange "n"
        ⟨[("d1", ⟨"d1", "/docs/d.md".data, "D".data, "<p>x</p>".data, [], none, 0⟩)],
          some "d1", none,
          [⟨"n", "new", "delete", "My Doc".data, "<p>b</p>".data, "",
            ChangeStatus.pending⟩], 5⟩).documents "doc-5" =
      some ⟨"doc-5", "/docs/my-doc.md".data, "My Doc".data, "<p>b</p>".data, [], none, 5⟩ ∧
    lookupDoc (applyChange "n"
        ⟨[("d1", ⟨"d1", "/docs/d.md".data, "D".data, "<p>x</p>".data, [], none, 0⟩)],
          some "d1", none,
          [⟨"n", "new", "delete", "My Doc".data, "<p>b</p>".data, "",
            ChangeStatus.pending⟩], 5⟩).documents "d1" =
      some ⟨"d1", "/docs/d.md".data, "D".data, "<p>x</p>".data, [], none, 0⟩ :=
  ⟨(applyChangeNewSentinelCreates
      ⟨[("d1", ⟨"d1", "/docs/d.md".data, "D".data, "<p>x</p>".data, [], none, 0⟩)],
        some "d1", none,
        [⟨"n", "new", "delete", "My Doc".data, "<p>b</p>".data, "",
          ChangeStatus.pending⟩], 5⟩
      "n" ⟨"n", "new", "delete", "My Doc".data, "<p>b</p>".data, "", ChangeStatus.pending⟩
      (by decide) (by decide) (by decide)).2.2.1 (by decide),
   by
    rw [(applyChangeNewSentinelCreates
      ⟨[("d1", ⟨"d1", "/docs/d.md".data, "D".data, "<p>x</p>".data, [], none, 0⟩)],
        some "d1", none,
        [⟨"n", "new", "delete", "My Doc".data, "<p>b</p>".data, "",
          ChangeStatus.pending⟩], 5⟩
      "n" ⟨"n", "new", "delete", "My Doc".data, "<p>b</p>".data, "", ChangeStatus.pending⟩
      (by decide) (by decide) (by decide)).2.1 "d1" (by decide)]
    decide⟩

/-! ## Claim C6 -/

/-- C6 counterexample: with a document titled "Untitled" already present,
applying a create Change targeting "Untitled" creates a second document
also titled "Untitled" — not "Untitled 2" — so the incrementing-suffix
disambiguation does not run on the create-Change path. -/
theorem createChangeSkipsDisambiguation :
    ((applyChange "c"
        ⟨[("e1", ⟨"e1", "/docs/untitled.md".data, "Untitled".data, [], [], none, 0⟩)],
          none, none,
          [⟨"c", "new", "create", "Untitled".data, "<p>hi</p>".data, "",
            ChangeStatus.pending⟩], 7⟩).documents.map (fun p => p.2.title)) =
      ["Untitled".data, "Untitled".data] := by decide

/-- C6 (amended): applying a create Change produces a new document titled
exactly `change.target` with path `/docs/<slug>.md` from the slugified
title, leaving existing documents untouched, and performs no title
disambiguation; the incrementing-suffix disambiguation ("Untitled",
"Untitled 2", ...) belongs to the manual new-document flow, whose
`freshTitle` picks "Untitled 2" when "Untitled" is taken and whose
`handleNewDocument` creates the document under that title. -/
theorem createChangeTitleExact (s : DocStore) (cid : String) (ch : PendingChange)
    (hf : s.pendingChanges.find? (fun c => c.id == cid) = some ch)
    (hp : ch.status = ChangeStatus.pending)
    (hop : ch.operation = "create") :
    (∃ d, lookupDoc (applyChange cid s).documents (docIdOf s.stamp) = some d ∧
      d.title = ch.target ∧
      d.path = "/docs/".data ++ slugify ch.target ++ ".md".data) ∧
    (∀ k, k ≠ docIdOf s.stamp →
      lookupDoc (applyChange cid s).documents k = lookupDoc s.documents k) ∧
    freshTitle ["Untitled".data] = "Untitled 2".data ∧
    (handleNewDocument
        ⟨[("e1", ⟨"e1", "/docs/untitled.md".data, "Untitled".data, [], [], none, 0⟩)],
          none, none, [], 7⟩).documents.map (fun p => p.2.title) =
      ["Untitled".data, "Untitled 2".data] := by
  have hdocs : (applyChange cid s).documents =
      upsertDoc s.documents (docIdOf s.stamp)
        ⟨docIdOf s.stamp, "/docs/".data ++ slugify ch.target ++ ".md".data, ch.target,
          (parseFrontmatter ch.content).body, (parseFrontmatter ch.content).frontmatter,
          (parseFrontmatter ch.content).frontmatterRaw, s.stamp⟩ := by
    unfold applyChange
    rw [hf]
    dsimp only
    rw [if_neg (by simp [hp]), if_pos (by simp [hop])]
    rfl
  refine ⟨?_, ?_, by decide, by decide⟩
  · refine ⟨⟨docIdOf s.stamp, "/docs/".data ++ slugify ch.target ++ ".md".data, ch.target,
      (parseFrontmatter ch.content).body, (parseFrontmatter ch.content).frontmatter,
      (parseFrontmatter ch.content).frontmatterRaw, s.stamp⟩, ?_, rfl, rfl⟩
    rw [hdocs]
    exact lookupDoc_upsert_self _ _ _
  · intro k hk
    rw [hdocs]
    exact lookupDoc_upsert_other _ _ _ _ hk

/-- C6 witness: the amended create semantics at a concrete store holding
an "Untitled" document. -/
theorem createChangeTitleExact_witness :
    (∃ d, lookupDoc (applyChange "c"
        ⟨[("e1", ⟨"e1", "/docs/untitled.md".data, "Untitled".data, [], [], none, 0⟩)],
          none, none,
          [⟨"c", "new", "create", "Untitled".data, "<p>hi</p>".data, "",
            ChangeStatus.pending⟩], 7⟩).documents "doc-7" = some d ∧
      d.title = "Untitled".data ∧
      d.path = "/docs/".data ++ slugify "Untitled".data ++ ".md".data) ∧
    freshTitle ["Untitled".data] = "Untitled 2".data :=
  ⟨(createChangeTitleExact
      ⟨[("e1", ⟨"e1", "/docs/untitled.md".data, "Untitled".data, [], [], none, 0⟩)],
        none, none,
        [⟨"c", "new", "create", "Untitled".data, "<p>hi</p>".data, "",
          ChangeStatus.pending⟩], 7⟩
      "c" ⟨"c", "new", "create", "Untitled".data, "<p>hi</p>".data, "", ChangeStatus.pending⟩
      (by decide) (by decide) (by decide)).1,
   (createChangeTitleExact
      ⟨[("e1", ⟨"e1", "/docs/untitled.md".data, "Untitled".data, [], [], none, 0⟩)],
        none, none,
        [⟨"c", "new", "create", "Untitled".data, "<p>hi</p>".data, "",
          ChangeStatus.pending⟩], 7⟩
      "c" ⟨"c", "new", "create", "Untitled".data, "<p>hi</p>".data, "", ChangeStatus.pending⟩
      (by decide) (by decide) (by decide)).2.2.1⟩


/-! ## Claim C3 -/

/-- C3: on content `<h1>T</h1><h2>A</h2><p>1</p><h3>B</h3><p>2</p><h2>C</h2>`
with target "replace A", the located section starts at the `<h2>A` heading
(offset 10) and ends at the next equal-or-shallower heading `<h2>C`
(offset 46), absorbing the deeper `<h3>B`; the replaced span is exactly
`<h2>A</h2><p>1</p><h3>B</h3><p>2</p>`, and `findAndReplace` substitutes
any new content for precisely that span. -/
theorem replaceSectionSpanExample (newContent : Str) :
    sectionSpan "<h1>T</h1><h2>A</h2><p>1</p><h3>B</h3><p>2</p><h2>C</h2>".data
      (cleanedTerm (lower "replace A".data)) = some (10, 46) ∧
    List.take 36 (List.drop 10
      "<h1>T</h1><h2>A</h2><p>1</p><h3>B</h3><p>2</p><h2>C</h2>".data) =
      "<h2>A</h2><p>1</p><h3>B</h3><p>2</p>".data ∧
    findAndReplace "<h1>T</h1><h2>A</h2><p>1</p><h3>B</h3><p>2</p><h2>C</h2>".data
      "replace A".data newContent =
      "<h1>T</h1>".data ++ newContent ++ "<h2>C</h2>".data :=
  ⟨by decide, by decide, rfl⟩

/-! ## Claim C2 -/

/-- A target of exactly "at the end" classifies under the `end` keyword
rule and yields the document length for every content. -/
theorem fip_at_the_end (c : Str) : findInsertionPoint c "at the end".data = c.length := by
  have h1 : containsB (lower "at the end".data) "after".data = false := by decide
  have h2 : containsB (lower "at the end".data) "before".data = false := by decide
  have h3 : containsB (lower "at the end".data) "end".data = true := by decide
  simp [findInsertionPoint, h1, h2, h3]

/-- Appending a newline-led suffix cannot create a leading `---`. -/
theorem swb_dashes_append {c : Str} (x : Str)
    (h : startsWithB c "---".data = false) :
    startsWithB (c ++ '\n' :: x) "---".data = false := by
  match c with
  | [] => simp [startsWithB]
  | [a] => simp [startsWithB]
  | [a, b] => simp [startsWithB]
  | a :: b :: d :: t =>
    simp only [startsWithB, List.cons_append] at h ⊢
    simpa using h

/-- Applying a pending insert change targeting "at the end" appends a
newline and the change content to the target document and stamps it. -/
theorem applyChange_insert_at_end (s : DocStore) (cid : String) (ch : PendingChange)
    (doc : Document)
    (hf : s.pendingChanges.find? (fun c => c.id == cid) = some ch)
    (hp : ch.status = ChangeStatus.pending)
    (hop : ch.operation = "insert")
    (ht : ch.target = "at the end".data)
    (hnew : ch.documentId ≠ "new")
    (hdoc : lookupDoc s.documents ch.documentId = some doc)
    (hnd : startsWithB doc.content "---".data = false) :
    applyChange cid s = { s with
      documents := upsertDoc s.documents ch.documentId
        { doc with content := doc.content ++ '\n' :: ch.content, updatedAt := s.stamp },
      pendingChanges := setStatus s.pendingChanges cid ChangeStatus.applied,
      stamp := s.stamp + 1 } := by
  have hact : applyChangeToContent doc.content ch = doc.content ++ '\n' :: ch.content := by
    unfold applyChangeToContent
    rw [if_pos hop, ht, fip_at_the_end, List.take_length, List.drop_length,
      List.append_nil]
  have hupd : updateDocument ch.documentId (doc.content ++ '\n' :: ch.content) s =
      { s with
        documents := upsertDoc s.documents ch.documentId
          { doc with content := doc.content ++ '\n' :: ch.content, updatedAt := s.stamp },
        stamp := s.stamp + 1 } := by
    unfold updateDocument
    rw [hdoc, parseFrontmatter_not_dashes (swb_dashes_append ch.content hnd)]
    simp
  unfold applyChange
  rw [hf]
  dsimp only
  rw [if_neg (by simp [hp]), if_neg (by simp [hop, hnew]), if_neg (by simp [hop]),
    hdoc]
  dsimp only
  rw [hact, hupd]

/-- C2: with two pending insert changes for document `d1`, both targeting
"at the end", carrying contents "A" then "B", `applyAllChanges` applies
them in queue order: for every initial content `c` (not starting with a
frontmatter marker) the final content is exactly `c` followed by newline,
`A`, newline, `B` — A before B, never B before A. -/
theorem applyAllKeepsOrder (c : Str)
    (hnd : startsWithB c "---".data = false) :
    (applyAllChanges
        ⟨[("d1", ⟨"d1", "/docs/d.md".data, "D".data, c, [], none, 0⟩)], some "d1", none,
          [⟨"a", "d1", "insert", "at the end".data, "A".data, "", ChangeStatus.pending⟩,
           ⟨"b", "d1", "insert", "at the end".data, "B".data, "", ChangeStatus.pending⟩],
          10⟩).documents.map (fun p => p.2.content) =
      [c ++ '\n' :: 'A' :: '\n' :: 'B' :: []] := by
  have hs1 : applyChange "a"
      ⟨[("d1", ⟨"d1", "/docs/d.md".data, "D".data, c, [], none, 0⟩)], some "d1", none,
        [⟨"a", "d1", "insert", "at the end".data, "A".data, "", ChangeStatus.pending⟩,
         ⟨"b", "d1", "insert", "at the end".data, "B".data, "", ChangeStatus.pending⟩],
        10⟩ =
      ⟨[("d1", ⟨"d1", "/docs/d.md".data, "D".data, c ++ '\n' :: 'A' :: [], [], none, 10⟩)],
        some "d1", none,
        [⟨"a", "d1", "insert", "at the end".data, "A".data, "", ChangeStatus.applied⟩,
         ⟨"b", "d1", "insert", "at the end".data, "B".data, "", ChangeStatus.pending⟩],
        11⟩ :=
    (applyChange_insert_at_end
      ⟨[("d1", ⟨"d1", "/docs/d.md".data, "D".data, c, [], none, 0⟩)], some "d1", none,
        [⟨"a", "d1", "insert", "at the end".data, "A".data, "", ChangeStatus.pending⟩,
         ⟨"b", "d1", "insert", "at the end".data, "B".data, "", ChangeStatus.pending⟩],
        10⟩ "a"
      ⟨"a", "d1", "insert", "at the end".data, "A".data, "", ChangeStatus.pending⟩
      ⟨"d1", "/docs/d.md".data, "D".data, c, [], none, 0⟩
      rfl rfl rfl rfl (by decide) rfl hnd).trans rfl
  have hs2 : applyChange "b"
      ⟨[("d1", ⟨"d1", "/docs/d.md".data, "D".data, c ++ '\n' :: 'A' :: [], [], none, 10⟩)],
        some "d1", none,
        [⟨"a", "d1", "insert", "at the end".data, "A".data, "", ChangeStatus.applied⟩,
         ⟨"b", "d1", "insert", "at the end".data, "B".data, "", ChangeStatus.pending⟩],
        11⟩ =
      ⟨[("d1", ⟨"d1", "/docs/d.md".data, "D".data,
          (c ++ '\n' :: 'A' :: []) ++ '\n' :: 'B' :: [], [], none, 11⟩)],
        some "d1", none,
        [⟨"a", "d1", "insert", "at the end".data, "A".data, "", ChangeStatus.applied⟩,
         ⟨"b", "d1", "insert", "at the end".data, "B".data, "", ChangeStatus.applied⟩],
        12⟩ :=
    (applyChange_insert_at_end
      ⟨[("d1", ⟨"d1", "/docs/d.md".data, "D".data, c ++ '\n' :: 'A' :: [], [], none, 10⟩)],
        some "d1", none,
        [⟨"a", "d1", "insert", "at the end".data, "A".data, "", ChangeStatus.applied⟩,
         ⟨"b", "d1", "insert", "at the end".data, "B".data, "", ChangeStatus.pending⟩],
        11⟩ "b"
      ⟨"b", "d1", "insert", "at the end".data, "B".data, "", ChangeStatus.pending⟩
      ⟨"d1", "/docs/d.md".data, "D".data, c ++ '\n' :: 'A' :: [], [], none, 10⟩
      rfl rfl rfl rfl (by decide) rfl (swb_dashes_append _ hnd)).trans rfl
  have hseq : applyAllChanges
      ⟨[("d1", ⟨"d1", "/docs/d.md".data, "D".data, c, [], none, 0⟩)], some "d1", none,
        [⟨"a", "d1", "insert", "at the end".data, "A".data, "", ChangeStatus.pending⟩,
         ⟨"b", "d1", "insert", "at the end".data, "B".data, "", ChangeStatus.pending⟩],
        10⟩ =
      applyChange "b" (applyChange "a"
        ⟨[("d1", ⟨"d1", "/docs/d.md".data, "D".data, c, [], none, 0⟩)], some "d1", none,
          [⟨"a", "d1", "insert", "at the end".data, "A".data, "", ChangeStatus.pending⟩,
           ⟨"b", "d1", "insert", "at the end".data, "B".data, "", ChangeStatus.pending⟩],
          10⟩) := rfl
  rw [hseq, hs1, hs2]
  simp

/-- C2 witness: the queue-order property evaluated on the concrete initial
content `<p>x</p>`. -/
theorem applyAllKeepsOrder_witness :
    (applyAllChanges
        ⟨[("d1", ⟨"d1", "/docs/d.md".data, "D".data, "<p>x</p>".data, [], none, 0⟩)],
          some "d1", none,
          [⟨"a", "d1", "insert", "at the end".data, "A".data, "", ChangeStatus.pending⟩,
           ⟨"b", "d1", "insert", "at the end".data, "B".data, "", ChangeStatus.pending⟩],
          10⟩).documents.map (fun p => p.2.content) =
      ["<p>x</p>".data ++ '\n' :: 'A' :: '\n' :: 'B' :: []] :=
  applyAllKeepsOrder "<p>x</p>".data (by decide)

/-! ## Claim C8 -/

/-- One-step unfolding of the fuelled heading scan. -/
theorem findHeadingSatGo_succ (term : Str) (fuel : Nat) (s : Str) :
    findHeadingSatGo term (fuel + 1) s =
      match matchHeadingAt s with
      | some (m, r) =>
        if containsB (lower m) term then some (0, m, r)
        else (findHeadingSatGo term fuel r).map (fun p => (p.1 + m.length, p.2.1, p.2.2))
      | none =>
        match s with
        | [] => none
        | _ :: tl => (findHeadingSatGo term fuel tl).map (fun p => (p.1 + 1, p.2.1, p.2.2)) := rfl

theorem findHeadingSatGo_length (term : Str) :
    ∀ (fuel : Nat) (s : Str) (p : Nat × Str × Str),
      findHeadingSatGo term fuel s = some p →
      p.1 + p.2.1.length + p.2.2.length = s.length := by
  intro fuel
  induction fuel with
  | zero => intro s p h; cases h
  | succ n ih =>
    intro s p h
    rw [findHeadingSatGo_succ] at h
    split at h
    · rename_i m r hm
      obtain ⟨hs, hmlen⟩ := matchHeadingAt_eq hm
      split at h
      · cases h
        subst hs
        simp [List.length_append]
      · rw [Option.map_eq_some'] at h
        obtain ⟨q, hq, hpq⟩ := h
        have hr := ih r q hq
        subst hs
        rw [← hpq]
        simp only [List.length_append]
        omega
    · rcases s with _ | ⟨hd, tl⟩
      · dsimp only at h
        cases h
      · dsimp only at h
        rw [Option.map_eq_some'] at h
        obtain ⟨q, hq, hpq⟩ := h
        have ht := ih tl q hq
        rw [← hpq]
        simp only [List.length_cons]
        omega

theorem findOpenLe_le (lvl : Char) (s : Str) (k : Nat)
    (h : findOpenLe lvl s = some k) : k ≤ s.length := by
  induction s generalizing k with
  | nil => cases h
  | cons a tl ih =>
    unfold findOpenLe at h
    split at h
    · cases h
      simp
    · rw [Option.map_eq_some'] at h
      obtain ⟨j, hj, hjk⟩ := h
      have := ih j hj
      rw [← hjk]
      simp only [List.length_cons]
      omega

theorem indexOfSub_le (s pat : Str) (i : Nat) (h : indexOfSub s pat = some i) :
    i ≤ s.length := by
  induction s generalizing i with
  | nil =>
    unfold indexOfSub at h
    split at h
    · cases h
      exact Nat.le_refl 0
    · cases h
  | cons a tl ih =>
    unfold indexOfSub at h
    split at h
    · cases h
      simp
    · rw [Option.map_eq_some'] at h
      obtain ⟨j, hj, hji⟩ := h
      have := ih j hj
      rw [← hji]
      simp only [List.length_cons]
      omega

theorem lastIndexOfChar_le (s : Str) (c : Char) (i : Nat)
    (h : lastIndexOfChar s c = some i) : i ≤ s.length := by
  induction s generalizing i with
  | nil => cases h
  | cons a tl ih =>
    unfold lastIndexOfChar at h
    split at h
    · rename_i j hj
      cases h
      have := ih j hj
      simp only [List.length_cons]
      omega
    · split at h
      · cases h
        simp
      · cases h

theorem matchCloseAt_length {s : Str} (h : matchCloseAt s = true) : 5 ≤ s.length := by
  unfold matchCloseAt at h
  split at h
  · simp
  · cases h

theorem closeTagIdx_le (s : Str) (i : Nat) (h : closeTagIdx s = some i) :
    i + 5 ≤ s.length := by
  induction s generalizing i with
  | nil => cases h
  | cons a tl ih =>
    unfold closeTagIdx at h
    split at h
    · rename_i hm
      cases h
      simpa using matchCloseAt_length hm
    · rw [Option.map_eq_some'] at h
      obtain ⟨j, hj, hji⟩ := h
      have := ih j hj
      rw [← hji]
      simp only [List.length_cons]
      omega

theorem afterRule_le (content term : Str) (n : Nat)
    (h : afterRule content term = some n) : n ≤ content.length := by
  unfold afterRule at h
  rw [Option.map_eq_some'] at h
  obtain ⟨p, hp, hn⟩ := h
  unfold findHeadingSat at hp
  have hlen := findHeadingSatGo_length _ _ _ _ hp
  split at hn
  · rename_i k hk
    have hkle := findOpenLe_le _ _ _ hk
    rw [List.length_drop] at hkle
    omega
  · omega

theorem beforeRule_le (content term : Str) (n : Nat)
    (h : beforeRule content term = some n) : n ≤ content.length := by
  unfold beforeRule at h
  split at h
  · cases h
  · rename_i idx hidx
    have hidxle : idx ≤ content.length := by
      have h2 := indexOfSub_le (lower content) term idx hidx
      simpa [lower] using h2
    cases ht : lastIndexOfChar (content.take idx) '<' with
    | some t =>
      rw [ht] at h
      dsimp only at h
      cases h
      have h3 := lastIndexOfChar_le (content.take idx) '<' n ht
      have h4 : (content.take idx).length ≤ content.length := by
        simp only [List.length_take]
        omega
      omega
    | none =>
      rw [ht] at h
      dsimp only at h
      cases h
      exact hidxle

theorem beginningRule_le (content : Str) : beginningRule content ≤ content.length := by
  unfold beginningRule
  split
  · rename_i i hi
    exact closeTagIdx_le _ _ hi
  · simp

theorem findInsertionPoint_le (content target : Str) :
    findInsertionPoint content target ≤ content.length := by
  simp only [findInsertionPoint]
  split
  · rename_i n hn
    split at hn
    · exact afterRule_le _ _ _ hn
    · cases hn
  · split
    · rename_i n hn
      split at hn
      · exact beforeRule_le _ _ _ hn
      · cases hn
    · split
      · exact Nat.le_refl _
      · split
        · exact beginningRule_le _
        · exact Nat.le_refl _

/-- C8: the Content Locator is total and degrade-safe: `findInsertionPoint`
always returns an offset within the document (never raising); a target with
none of the recognized keywords yields the document length (append at
end); a target classified by the `after` rule whose heading scan finds no
match (and with no other keyword) falls through to the document length;
and `findAndReplace` without a `replace`/`delete` trigger, or whose
cleaned term matches no heading, returns the content with the new content
appended after a newline. -/
theorem locatorDegradeSafe (content target newContent : Str) :
    findInsertionPoint content target ≤ content.length ∧
    (containsB (lower target) "after".data = false →
      containsB (lower target) "before".data = false →
      containsB (lower target) "end".data = false →
      containsB (lower target) "beginning".data = false →
      containsB (lower target) "start".data = false →
      findInsertionPoint content target = content.length) ∧
    (containsB (lower target) "after".data = true →
      findHeadingSat (trim (replaceFirst (lower target) "after".data [])) content = none →
      containsB (lower target) "before".data = false →
      containsB (lower target) "end".data = false →
      containsB (lower target) "beginning".data = false →
      containsB (lower target) "start".data = false →
      findInsertionPoint content target = content.length) ∧
    (containsB (lower target) "replace".data = false →
      containsB (lower target) "delete".data = false →
      findAndReplace content target newContent = content ++ '\n' :: newContent) ∧
    (findHeadingSat (cleanedTerm (lower target)) content = none →
      findAndReplace content target newContent = content ++ '\n' :: newContent) := by
  refine ⟨findInsertionPoint_le content target, ?_, ?_, ?_, ?_⟩
  · intro h1 h2 h3 h4 h5
    simp [findInsertionPoint, h1, h2, h3, h4, h5]
  · intro h1 hnone h2 h3 h4 h5
    simp [findInsertionPoint, afterRule, h1, hnone, h2, h3, h4, h5]
  · intro h1 h2
    simp [findAndReplace, h1, h2]
  · intro hnone
    simp [findAndReplace, sectionSpan, hnone]

/-- C8 witness: degrade-safe behaviour at concrete unmatched targets. -/
theorem locatorDegradeSafe_witness :
    findInsertionPoint "<p>x</p>".data "nothing recognized".data =
      "<p>x</p>".data.length ∧
    findAndReplace "<p>x</p>".data "section two".data "N".data =
      "<p>x</p>".data ++ '\n' :: "N".data ∧
    findAndReplace "<p>x</p>".data "replace missing".data "N".data =
      "<p>x</p>".data ++ '\n' :: "N".data :=
  ⟨(locatorDegradeSafe "<p>x</p>".data "nothing recognized".data "N".data).2.1
      (by decide) (by decide) (by decide) (by decide) (by decide),
   (locatorDegradeSafe "<p>x</p>".data "section two".data "N".data).2.2.2.1
      (by decide) (by decide),
   (locatorDegradeSafe "<p>x</p>".data "replace missing".data "N".data).2.2.2.2
      (by decide)⟩

/-! ## Claim C4 -/

theorem ne_of_not_ws {a : Char} (h : isJsWs a = false) : a ≠ '\n' ∧ a ≠ '\r' := by
  constructor <;> intro he <;> subst he <;> simp [isJsWs] at h

theorem findTerm_cons_some {a : Char} {rest : Str} {L : Nat}
    (h : termHereLen (a :: rest) = some L) :
    findTerm (a :: rest) = some (0, L) := by
  unfold findTerm
  rw [h]

theorem findTerm_cons_none {a : Char} {rest : Str}
    (h : termHereLen (a :: rest) = none) :
    findTerm (a :: rest) = (findTerm rest).map (fun p => (p.1 + 1, p.2)) := by
  conv_lhs => unfold findTerm
  rw [h]

theorem termHereLen_nl (v : Str) :
    termHereLen ('\n' :: v) =
      if startsWithB v "---".data then some 4 else none := rfl

theorem termHereLen_other {a : Char} (v : Str) (h1 : a ≠ '\r') (h2 : a ≠ '\n') :
    termHereLen (a :: v) = none := by
  unfold termHereLen matchNl
  dsimp only
  rw [if_neg h1, if_neg h2]

theorem findTerm_sep (tail2 : Str) : ∀ (fm : Str), '\r' ∉ fm →
    (∀ u v, fm = u ++ '\n' :: v → startsWithB v "---".data = false) →
    findTerm (fm ++ '\n' :: '-' :: '-' :: '-' :: tail2) = some (fm.length, 4) := by
  intro fm
  induction fm with
  | nil =>
    intro _ _
    rw [List.nil_append,
      findTerm_cons_some
        (show termHereLen ('\n' :: '-' :: '-' :: '-' :: tail2) = some 4 by
          rw [termHereLen_nl]
          simp [startsWithB])]
    rfl
  | cons a fmtl ih =>
    intro hcr hterm
    have hcr' : '\r' ∉ fmtl := fun hm => hcr (List.mem_cons_of_mem a hm)
    by_cases ha : a = '\n'
    · subst ha
      have hterm' : ∀ u v, fmtl = u ++ '\n' :: v → startsWithB v "---".data = false := by
        intro u v huv
        exact hterm ('\n' :: u) v (by rw [huv]; rfl)
      have hpre : startsWithB (fmtl ++ '\n' :: '-' :: '-' :: '-' :: tail2) "---".data
          = false :=
        swb_dashes_append _ (hterm [] fmtl rfl)
      rw [List.cons_append,
        findTerm_cons_none (by simp [termHereLen_nl, hpre]),
        ih hcr' hterm']
      simp
    · have har : a ≠ '\r' := fun he => hcr (he ▸ List.mem_cons_self a fmtl)
      have hterm' : ∀ u v, fmtl = u ++ '\n' :: v → startsWithB v "---".data = false := by
        intro u v huv
        exact hterm (a :: u) v (by rw [huv]; rfl)
      rw [List.cons_append, findTerm_cons_none (termHereLen_other _ har ha),
        ih hcr' hterm']
      simp

theorem matchNl_nl (v : Str) : matchNl ('\n' :: v) = some 1 := rfl

theorem openCand_sep (f0 : Char) (fmtl tail2 : Str)
    (hf0 : isJsWs f0 = false)
    (hcr : '\r' ∉ (f0 :: fmtl))
    (hterm : ∀ u v, f0 :: fmtl = u ++ '\n' :: v → startsWithB v "---".data = false) :
    openCand ('\n' :: f0 :: (fmtl ++ '\n' :: '-' :: '-' :: '-' :: tail2)) = some 1 := by
  obtain ⟨hn, hr⟩ := ne_of_not_ws hf0
  have hws : wsRun ('\n' :: f0 :: (fmtl ++ '\n' :: '-' :: '-' :: '-' :: tail2)) = 1 := by
    simp [wsRun, hf0, show isJsWs '\n' = true from by decide]
  have hterm4 := findTerm_sep tail2 (f0 :: fmtl) hcr hterm
  rw [List.cons_append] at hterm4
  unfold openCand
  rw [hws]
  unfold openCandGo
  have hat1 : openCandAt ('\n' :: f0 :: (fmtl ++ '\n' :: '-' :: '-' :: '-' :: tail2)) 1 =
      none := by
    unfold openCandAt
    rw [show List.drop 1 ('\n' :: f0 :: (fmtl ++ '\n' :: '-' :: '-' :: '-' :: tail2)) =
      f0 :: (fmtl ++ '\n' :: '-' :: '-' :: '-' :: tail2) from rfl]
    rw [show matchNl (f0 :: (fmtl ++ '\n' :: '-' :: '-' :: '-' :: tail2)) = none by
      unfold matchNl
      dsimp only
      rw [if_neg hr, if_neg hn]]
  rw [hat1]
  dsimp only
  unfold openCandGo
  unfold openCandAt
  rw [List.drop_zero, matchNl_nl]
  dsimp only
  rw [Nat.zero_add]
  rw [show List.drop 1 ('\n' :: f0 :: (fmtl ++ '\n' :: '-' :: '-' :: '-' :: tail2)) =
    f0 :: (fmtl ++ '\n' :: '-' :: '-' :: '-' :: tail2) from rfl]
  rw [hterm4]
  rfl

/-- C4: frontmatter round-trips losslessly: for every content of the form
`---`, newline, key-value lines (first character not whitespace, no
carriage returns, no line starting with `---`), newline, `---`, newline,
body (not starting with whitespace), `parseFrontmatter` recovers the raw
frontmatter text and the body byte-identically, and
`serializeDocumentContent` re-wrapping that raw text reproduces the
original content byte-for-byte. -/
theorem frontmatterRoundTrip (f0 : Char) (fmtl body : Str)
    (hf0 : isJsWs f0 = false)
    (hcr : '\r' ∉ (f0 :: fmtl))
    (hterm : ∀ u v, f0 :: fmtl = u ++ '\n' :: v → startsWithB v "---".data = false)
    (hbody : ∀ b bs, body = b :: bs → isJsWs b = false) :
    parseFrontmatter ("---\n".data ++ (f0 :: fmtl) ++ "\n---\n".data ++ body) =
      ⟨body, parseMap (f0 :: fmtl), some (f0 :: fmtl)⟩ ∧
    serializeDocumentContent (some (f0 :: fmtl)) body =
      "---\n".data ++ (f0 :: fmtl) ++ "\n---\n".data ++ body := by
  have hC : "---\n".data ++ (f0 :: fmtl) ++ "\n---\n".data ++ body =
      '-' :: '-' :: '-' :: '\n' :: f0 ::
        (fmtl ++ '\n' :: '-' :: '-' :: '-' :: ('\n' :: body)) := by
    simp
  constructor
  · rw [hC]
    unfold parseFrontmatter
    rw [if_pos (show startsWithB ('-' :: '-' :: '-' :: '\n' :: f0 ::
        (fmtl ++ '\n' :: '-' :: '-' :: '-' :: ('\n' :: body))) "---".data = true from by
      simp [startsWithB])]
    rw [show List.drop 3 ('-' :: '-' :: '-' :: '\n' :: f0 ::
        (fmtl ++ '\n' :: '-' :: '-' :: '-' :: ('\n' :: body))) =
      '\n' :: f0 :: (fmtl ++ '\n' :: '-' :: '-' :: '-' :: ('\n' :: body)) from rfl]
    rw [openCand_sep f0 fmtl ('\n' :: body) hf0 hcr hterm]
    dsimp only
    rw [show List.drop 1 ('\n' :: f0 :: (fmtl ++ '\n' :: '-' :: '-' :: '-' :: ('\n' :: body))) =
      f0 :: (fmtl ++ '\n' :: '-' :: '-' :: '-' :: ('\n' :: body)) from rfl]
    have hterm4 := findTerm_sep ('\n' :: body) (f0 :: fmtl) hcr hterm
    rw [List.cons_append] at hterm4
    rw [hterm4]
    dsimp only
    have hdrop5 : List.drop (1 + (f0 :: fmtl).length + 4)
        ('\n' :: f0 :: (fmtl ++ '\n' :: '-' :: '-' :: '-' :: ('\n' :: body))) =
        '\n' :: body := by
      rw [show 1 + (f0 :: fmtl).length + 4 = (fmtl.length + 4) + 1 + 1 by
        simp [List.length_cons]; omega]
      rw [List.drop_succ_cons, List.drop_succ_cons, ← List.drop_drop, List.drop_left]
      rfl
    rw [hdrop5]
    have hwsb : wsRun ('\n' :: body) = 1 := by
      cases body with
      | nil => decide
      | cons b bs =>
        have hb := hbody b bs rfl
        simp [wsRun, hb, show isJsWs '\n' = true from by decide]
    rw [hwsb]
    rw [show List.drop 1 ('\n' :: body) = body from rfl]
    have htake : (f0 :: (fmtl ++ '\n' :: '-' :: '-' :: '-' :: ('\n' :: body))).take
        (f0 :: fmtl).length = f0 :: fmtl := by
      rw [← List.cons_append, List.take_left]
    rw [htake]
  · have hser : serializeDocumentContent (some (f0 :: fmtl)) body =
        '-' :: '-' :: '-' :: '\n' ::
          ((f0 :: fmtl) ++ '\n' :: '-' :: '-' :: '-' :: '\n' :: body) := by
      cases hbb : body with
      | nil => rfl
      | cons b bs =>
        have hb := hbody b bs hbb
        obtain ⟨hbn, _⟩ := ne_of_not_ws hb
        unfold serializeDocumentContent
        dsimp only
        split
        · rename_i rest heq
          exact absurd (List.cons.inj heq).1 hbn
        · rfl
    rw [hser, hC]
    simp

theorem no_newline_no_term {fm : Str} (h : '\n' ∉ fm) :
    ∀ u v, fm = u ++ '\n' :: v → startsWithB v "---".data = false := by
  intro u v he
  exfalso
  apply h
  rw [he]
  simp

theorem head_not_ws_of_cons {x : Str} {c : Char} {rest : Str} (hx : x = c :: rest)
    (hc : isJsWs c = false) : ∀ b bs, x = b :: bs → isJsWs b = false := by
  intro b bs hb
  rw [hx] at hb
  obtain ⟨h1, _⟩ := List.cons.inj hb
  rw [← h1]
  exact hc

/-- C4 witness: the round trip on a concrete one-line frontmatter
document. -/
theorem frontmatterRoundTrip_witness :
    parseFrontmatter "---\nkey: value\n---\n<p>hi</p>".data =
      ⟨"<p>hi</p>".data, parseMap "key: value".data, some "key: value".data⟩ ∧
    serializeDocumentContent (some "key: value".data) "<p>hi</p>".data =
      "---\nkey: value\n---\n<p>hi</p>".data :=
  frontmatterRoundTrip 'k' "ey: value".data "<p>hi</p>".data (by decide) (by decide)
    (no_newline_no_term (by decide))
    (head_not_ws_of_cons (show "<p>hi</p>".data = '<' :: "p>hi</p>".data from rfl)
      (by decide))

end Brain
